import Mathlib

/-
Verification of the collaborative-editor server core.

Shallow embedding of the server's OT engine (server/ot/operations.js,
server/ot/transform.js), the document store (server/services/documentService.js)
and the socket.io room handlers (server/index.js). JavaScript strings are
modelled as `List Char`, the numeric counts of wire operations as `Nat`
(the wire format only allows non-negative integer counts), JS `Map`s and
plain objects used as keyed stores as insertion-ordered association lists,
and a handler's emitted socket events as an explicit event list.
-/

namespace CollabEditor

/-- Operation primitive (server/ot/operations.js): exactly one of
{type: retain, count}, {type: insert, text}, {type: delete, count}. -/
inductive Prim where
  | retain (count : Nat)
  | insert (text : List Char)
  | delete (count : Nat)
deriving DecidableEq, Repr

/-- An operation is an ordered array of primitives. -/
abbrev Op := List Prim

/-- Sum of retain and delete counts of an operation. This is the value of the
`length` accumulator of validateOperation and also the final value of the
`cursor` variable of the applyOperation loop (both only add `op.count` for
retain and delete primitives). -/
def opCoverage : Op → Nat
  | [] => 0
  | .retain n :: rest => n + opCoverage rest
  | .insert _ :: rest => opCoverage rest
  | .delete n :: rest => n + opCoverage rest

/-- getOpLength (server/ot/operations.js): sums retain counts and insert text
lengths; the length of the document produced by the operation. -/
def getOpLength : Op → Nat
  | [] => 0
  | .retain n :: rest => n + getOpLength rest
  | .insert s :: rest => s.length + getOpLength rest
  | .delete _ :: rest => getOpLength rest

/-- The for-loop body of applyOperation (server/ot/operations.js), with the
`result` accumulation written as list appends in loop order and the `cursor`
variable threaded through. `str.slice(cursor, cursor + n)` is
`(str.drop cursor).take n` (JS slice clamps out-of-range indices, as do
`drop` and `take`). -/
def applyGo (str : List Char) : Nat → Op → List Char
  | _, [] => []
  | cursor, .retain n :: rest => (str.drop cursor).take n ++ applyGo str (cursor + n) rest
  | cursor, .insert s :: rest => s ++ applyGo str cursor rest
  | cursor, .delete n :: rest => applyGo str (cursor + n) rest

/-- applyOperation (server/ot/operations.js lines 24-45). After the loop the
cursor equals `opCoverage ops`; the code then appends the remaining
characters `str.slice(cursor)` iff `cursor < str.length`. The function never
throws: retains reading past the end of `str` copy only what exists. -/
def applyOperation (str : List Char) (ops : Op) : List Char :=
  let result := applyGo str 0 ops
  if opCoverage ops < str.length then result ++ str.drop (opCoverage ops) else result

/-- validateOperation (server/ot/operations.js lines 67-74): sums retain and
delete counts and compares the sum with docLength. It checks nothing else. -/
def validateOperation (ops : Op) (docLength : Nat) : Bool :=
  opCoverage ops == docLength

/-- Tie-breaking side parameter of transform ('left' or 'right'). -/
inductive Side where
  | left
  | right
deriving DecidableEq, Repr

/-- The while-loop of transform (server/ot/transform.js lines 90-192).

State of the loop: `l1` is the suffix `op1[i..]`, `c1` the value of
`op1Cursor`, `l2` the suffix `op2[j..]`, `c2` the value of `op2Cursor`.
The loop only resets a cursor to 0 when its primitive completes inside the
retain/delete block; the other branches advance `i`/`j` leaving the cursor
variable untouched, which is reproduced here by passing the cursor along.

In the retain/delete block the loop computes
`minCount = min(o1Count - op1Cursor, o2Count - op2Cursor)`, adds it to both
cursors and advances `i` (resp. `j`) when the cursor reaches the count. A
cursor never exceeds its primitive's count in the loop (it grows by at most
the remaining count), so the JS completion test `op1Cursor === o1Count` is
written as the equivalent `n1 ≤ c1 + m`. -/
def transformGo : Op → Nat → Op → Nat → Side → Op
  | [], _, [], _, _ => []
  | [], c1, .retain _ :: t2, c2, side => transformGo [] c1 t2 c2 side
  | [], c1, .insert s2 :: t2, c2, side => .retain s2.length :: transformGo [] c1 t2 c2 side
  | [], c1, .delete _ :: t2, c2, side => transformGo [] c1 t2 c2 side
  | o1 :: t1, c1, [], c2, side => o1 :: transformGo t1 c1 [] c2 side
  | .insert s1 :: t1, c1, .insert s2 :: t2, c2, .left =>
      .retain s2.length :: transformGo (.insert s1 :: t1) c1 t2 c2 .left
  | .insert s1 :: t1, c1, .insert s2 :: t2, c2, .right =>
      .insert s1 :: transformGo t1 c1 (.insert s2 :: t2) c2 .right
  | .insert s1 :: t1, c1, .retain n2 :: t2, c2, side =>
      .insert s1 :: transformGo t1 c1 (.retain n2 :: t2) c2 side
  | .insert s1 :: t1, c1, .delete n2 :: t2, c2, side =>
      .insert s1 :: transformGo t1 c1 (.delete n2 :: t2) c2 side
  | .retain n1 :: t1, c1, .insert s2 :: t2, c2, side =>
      .retain s2.length :: transformGo (.retain n1 :: t1) c1 t2 c2 side
  | .delete n1 :: t1, c1, .insert s2 :: t2, c2, side =>
      .retain s2.length :: transformGo (.delete n1 :: t1) c1 t2 c2 side
  | .retain n1 :: t1, c1, .retain n2 :: t2, c2, side =>
      .retain (min (n1 - c1) (n2 - c2)) ::
      transformGo
        (if n1 ≤ c1 + min (n1 - c1) (n2 - c2) then t1 else .retain n1 :: t1)
        (if n1 ≤ c1 + min (n1 - c1) (n2 - c2) then 0 else c1 + min (n1 - c1) (n2 - c2))
        (if n2 ≤ c2 + min (n1 - c1) (n2 - c2) then t2 else .retain n2 :: t2)
        (if n2 ≤ c2 + min (n1 - c1) (n2 - c2) then 0 else c2 + min (n1 - c1) (n2 - c2))
        side
  | .retain n1 :: t1, c1, .delete n2 :: t2, c2, side =>
      transformGo
        (if n1 ≤ c1 + min (n1 - c1) (n2 - c2) then t1 else .retain n1 :: t1)
        (if n1 ≤ c1 + min (n1 - c1) (n2 - c2) then 0 else c1 + min (n1 - c1) (n2 - c2))
        (if n2 ≤ c2 + min (n1 - c1) (n2 - c2) then t2 else .delete n2 :: t2)
        (if n2 ≤ c2 + min (n1 - c1) (n2 - c2) then 0 else c2 + min (n1 - c1) (n2 - c2))
        side
  | .delete n1 :: t1, c1, .retain n2 :: t2, c2, side =>
      .delete (min (n1 - c1) (n2 - c2)) ::
      transformGo
        (if n1 ≤ c1 + min (n1 - c1) (n2 - c2) then t1 else .delete n1 :: t1)
        (if n1 ≤ c1 + min (n1 - c1) (n2 - c2) then 0 else c1 + min (n1 - c1) (n2 - c2))
        (if n2 ≤ c2 + min (n1 - c1) (n2 - c2) then t2 else .retain n2 :: t2)
        (if n2 ≤ c2 + min (n1 - c1) (n2 - c2) then 0 else c2 + min (n1 - c1) (n2 - c2))
        side
  | .delete n1 :: t1, c1, .delete n2 :: t2, c2, side =>
      transformGo
        (if n1 ≤ c1 + min (n1 - c1) (n2 - c2) then t1 else .delete n1 :: t1)
        (if n1 ≤ c1 + min (n1 - c1) (n2 - c2) then 0 else c1 + min (n1 - c1) (n2 - c2))
        (if n2 ≤ c2 + min (n1 - c1) (n2 - c2) then t2 else .delete n2 :: t2)
        (if n2 ≤ c2 + min (n1 - c1) (n2 - c2) then 0 else c2 + min (n1 - c1) (n2 - c2))
        side
termination_by l1 _ l2 _ _ => l1.length + l2.length
decreasing_by all_goals ((try split_ifs) <;> simp only [List.length_cons, List.length_nil] <;> omega)

/-- The merging loop of compactOps (server/ot/transform.js lines 199-222):
`current` is the primitive being accumulated, the list is the remaining
input. Adjacent same-kind primitives are merged; a kind change pushes
`current`. -/
def compactGo : Prim → Op → Op
  | current, [] => [current]
  | .retain m, .retain n :: rest => compactGo (.retain (m + n)) rest
  | .retain m, .insert s :: rest => .retain m :: compactGo (.insert s) rest
  | .retain m, .delete n :: rest => .retain m :: compactGo (.delete n) rest
  | .insert s, .retain n :: rest => .insert s :: compactGo (.retain n) rest
  | .insert s, .insert t :: rest => compactGo (.insert (s ++ t)) rest
  | .insert s, .delete n :: rest => .insert s :: compactGo (.delete n) rest
  | .delete m, .retain n :: rest => .delete m :: compactGo (.retain n) rest
  | .delete m, .insert s :: rest => .delete m :: compactGo (.insert s) rest
  | .delete m, .delete n :: rest => compactGo (.delete (m + n)) rest

/-- compactOps (server/ot/transform.js): empty input is returned as is,
otherwise the merging loop runs with `current = ops[0]`. -/
def compactOps : Op → Op
  | [] => []
  | first :: rest => compactGo first rest

/-- transform (server/ot/transform.js lines 90-192): the loop starting with
`i = j = 0`, `op1Cursor = op2Cursor = 0`, with the result passed through
compactOps. -/
def transform (op1 op2 : Op) (side : Side) : Op :=
  compactOps (transformGo op1 0 op2 0 side)

/-- Proof-layer reformulation of the applyOperation loop in which the cursor
is eliminated by consuming the front of the string: related to `applyGo` by
`applyGo str cursor ops = applyRem (str.drop cursor) ops`. Used only inside
proofs. -/
def applyRem : List Char → Op → List Char
  | _, [] => []
  | s, .retain n :: rest => s.take n ++ applyRem (s.drop n) rest
  | s, .insert t :: rest => t ++ applyRem s rest
  | s, .delete n :: rest => applyRem (s.drop n) rest

/-- Count of the head primitive when it is a retain or delete, 0 otherwise.
Proof-layer helper describing the loop state of transform. -/
def headCount : Op → Nat
  | [] => 0
  | .retain n :: _ => n
  | .insert _ :: _ => 0
  | .delete n :: _ => n

/-- Invariant of a transform loop cursor: it is 0, or its primitive is a
partially consumed retain/delete (so strictly below that primitive's count;
`headCount` is 0 for inserts and for the empty list, making the second
disjunct unsatisfiable there). Proof-layer helper. -/
def cursorOk (l : Op) (c : Nat) : Prop :=
  c = 0 ∨ c < headCount l

/-- The operation suffix still to be processed by the transform loop for
state `(l, c)`: the head retain/delete count is reduced by the consumed
cursor. Proof-layer helper. -/
def remHead : Op → Nat → Op
  | [], _ => []
  | .retain n :: t, c => .retain (n - c) :: t
  | .insert s :: t, _ => .insert s :: t
  | .delete n :: t, c => .delete (n - c) :: t

/-- In-memory document state (server/services/documentService.js):
`{ content, revision, history }`, history holding the most recent applied
operations (kept at no more than 100 entries). -/
structure EditorDoc where
  content : List Char
  revision : Nat
  history : List Op
deriving DecidableEq, Repr

/-- The only throw in applyOperationToDoc: `Operation from future` when
baseRevision exceeds the current revision. The function has no
RevisionTooOld error path. -/
inductive IngestError where
  | futureRevision
deriving DecidableEq, Repr

/-- `history.push(op); if (history.length > 100) history.shift();` -/
def pushHistory (history : List Op) (op : Op) : List Op :=
  let h := history ++ [op]
  if h.length > 100 then h.tail else h

/-- JS `Array.prototype.slice(start, arr.length)` for a possibly negative
`start`: a negative start counts from the end, clamped at 0, i.e. the slice
begins at `max(length + start, 0)`; the truncated Nat subtraction below
realises the clamp. -/
def jsSliceFrom {α : Type} (l : List α) (start : Int) : List α :=
  if start < 0 then l.drop (l.length - start.natAbs) else l.drop start.toNat

/-- applyOperationToDoc (server/services/documentService.js lines 50-92).
Mutation of `editorDoc` is modelled by returning the updated document next
to the `{ transformedOp, newRevision }` result. The stale branch slices
`history` from `baseRevision - (revision - history.length)` (a JS
subtraction that can go negative, hence the Int) and left-folds
`transform(op, historicalOp, 'left')` over the slice. -/
def applyOperationToDoc (editorDoc : EditorDoc) (operation : Op) (baseRevision : Nat) :
    Except IngestError (EditorDoc × Op × Nat) :=
  if baseRevision = editorDoc.revision then
    let newContent := applyOperation editorDoc.content operation
    .ok ({ content := newContent, revision := editorDoc.revision + 1,
           history := pushHistory editorDoc.history operation },
         operation, editorDoc.revision + 1)
  else if baseRevision < editorDoc.revision then
    let opsToTransformAgainst := jsSliceFrom editorDoc.history
      ((baseRevision : Int) - ((editorDoc.revision : Int) - (editorDoc.history.length : Int)))
    let transformedOp := opsToTransformAgainst.foldl (fun acc h => transform acc h .left) operation
    let newContent := applyOperation editorDoc.content transformedOp
    .ok ({ content := newContent, revision := editorDoc.revision + 1,
           history := pushHistory editorDoc.history transformedOp },
         transformedOp, editorDoc.revision + 1)
  else
    .error .futureRevision

/-- Modelled from the spec (for comparison with validateOperation): true iff
`Σ retain + Σ delete == baseLen`, all counts are ≥ 1, and all inserts are
non-empty. -/
def specValidate (ops : Op) (baseLen : Nat) : Bool :=
  (opCoverage ops == baseLen) &&
  ops.all fun p =>
    match p with
    | .retain n => decide (1 ≤ n)
    | .delete n => decide (1 ≤ n)
    | .insert s => !s.isEmpty

/-- Socket identifier (socket.id). Opaque string in the source; modelled as
a number. -/
abbrev SocketId := Nat

/-- Room code: 6-character string. -/
abbrev RoomCode := List Char

/-- An editor entry of `room.editors` (server/index.js). -/
structure Editor where
  id : Nat
  name : List Char
  language : List Char
deriving DecidableEq, Repr

/-- A member entry of the `room.users` Map. -/
structure UserInfo where
  username : List Char
  color : List Char
deriving DecidableEq, Repr

/-- Room state (server/index.js create_room handler). `users` models the JS
Map, which iterates in insertion order, as an association list ordered by
join time; `expiryTimer` models the armed timeout as its delay in
milliseconds (`none` when no timer is armed); `editorDocs` models the
per-editor document object keyed by editor id. -/
structure Room where
  editors : List Editor
  nextEditorId : Nat
  users : List (SocketId × UserInfo)
  hostId : SocketId
  expiryTimer : Option Nat
  editorDocs : List (Nat × EditorDoc)
deriving DecidableEq, Repr

/-- Socket events a handler emits, in emission order. -/
inductive SEvent where
  | roomError (message : List Char)
  | editorRemoved (editorId : Nat)
  | hostTransferred (newHostId : SocketId)
  | userLeft (socketId : SocketId)
  | kicked (target : SocketId) (message : List Char)
  | roomClosed (message : List Char)
deriving DecidableEq, Repr

/-- Removal of the entry with the given key from an association list
modelling a JS Map (`map.delete(k)`) or object key removal
(`delete obj[k]`); keys are unique, so filtering removes that entry and
preserves the order of the others. -/
def eraseKey {α β : Type} [BEq α] (l : List (α × β)) (k : α) : List (α × β) :=
  l.filter fun p => p.1 != k

/-- In-place replacement of the value stored under a key (mutation of the
object held in a JS Map). -/
def setKey {α β : Type} [BEq α] (l : List (α × β)) (k : α) (v : β) : List (α × β) :=
  l.map fun p => if p.1 == k then (k, v) else p

/-- remove_editor handler body after the not-in-a-room guard
(server/index.js lines 188-210): the editor is removed and
`editor_removed` broadcast only when it is found and more than one editor
remains; otherwise nothing happens and nothing is emitted. -/
def removeEditor (room : Room) (editorId : Nat) : Room × List SEvent :=
  match room.editors.findIdx? (fun e => e.id == editorId) with
  | some index =>
      if room.editors.length > 1 then
        ({ room with editors := room.editors.eraseIdx index,
                     editorDocs := eraseKey room.editorDocs editorId },
         [.editorRemoved editorId])
      else (room, [])
  | none => (room, [])

/-- disconnect handler body once the room is found (server/index.js lines
261-285): the member is removed; if it was the host and members remain, the
host becomes `room.users.keys().next().value` — the first remaining entry
in Map insertion order, i.e. the oldest remaining member by join order —
and `host_transferred` is broadcast; if the room became empty, the expiry
timer is armed for 30*60*1000 ms; finally `user_left` is broadcast. (The
server-level `socketToRoom.delete(socket.id)` bookkeeping is outside the
room state modelled here.) -/
def disconnectFromRoom (room : Room) (socketId : SocketId) : Room × List SEvent :=
  let users := eraseKey room.users socketId
  let hostStep :=
    if socketId == room.hostId then
      match users.head? with
      | some (nextUser, _) => (nextUser, [SEvent.hostTransferred nextUser])
      | none => (room.hostId, ([] : List SEvent))
    else (room.hostId, [])
  let expiryTimer := if users.length == 0 then some (30 * 60 * 1000) else room.expiryTimer
  ({ room with users := users, hostId := hostStep.1, expiryTimer := expiryTimer },
   hostStep.2 ++ [SEvent.userLeft socketId])

/-- Server-level state relevant to kick_user / close_room: the `rooms` Map
(code to room) and the `socketToRoom` Map. -/
structure ServerState where
  rooms : List (RoomCode × Room)
  socketToRoom : List (SocketId × RoomCode)
deriving DecidableEq, Repr

/-- An uncaught JS runtime exception: reading a property of `undefined`. -/
inductive JsError where
  | typeError
deriving DecidableEq, Repr

/-- kick_user handler (server/index.js lines 121-134). The handler reads
`socketToRoom.get(socket.id)` and `rooms.get(roomCode)` without checking
either: when the sender is in no room, `roomCode` is undefined, the room
lookup yields undefined and `room.hostId` throws a TypeError — modelled as
the error result, leaving the state untouched. -/
def kickUser (st : ServerState) (senderId targetId : SocketId) :
    Except JsError (ServerState × List SEvent) :=
  match st.socketToRoom.lookup senderId with
  | none => .error .typeError
  | some roomCode =>
    match st.rooms.lookup roomCode with
    | none => .error .typeError
    | some room =>
      if senderId != room.hostId then
        .ok (st, [.roomError "Only the host can kick users".toList])
      else
        let room2 := { room with users := eraseKey room.users targetId }
        .ok ({ st with rooms := setKey st.rooms roomCode room2,
                       socketToRoom := eraseKey st.socketToRoom targetId },
             [.kicked targetId "You were kicked from the room".toList,
              .userLeft targetId])

/-- close_room handler (server/index.js lines 141-153), with the same
unchecked lookups as kick_user: not being in a room throws a TypeError at
`room.hostId`. On success every member is removed from socketToRoom and the
room is deleted (the cleared expiry timer leaves no modelled state). -/
def closeRoom (st : ServerState) (senderId : SocketId) :
    Except JsError (ServerState × List SEvent) :=
  match st.socketToRoom.lookup senderId with
  | none => .error .typeError
  | some roomCode =>
    match st.rooms.lookup roomCode with
    | none => .error .typeError
    | some room =>
      if senderId != room.hostId then
        .ok (st, [.roomError "Only the host can close the room".toList])
      else
        let socketToRoom := room.users.foldl (fun acc p => eraseKey acc p.1) st.socketToRoom
        .ok ({ st with rooms := st.rooms.filter (fun p => p.1 != roomCode),
                       socketToRoom := socketToRoom },
             [.roomClosed "Host closed the room".toList])

/-- A document as loaded after a server restart (loadEditorDocs resets
history to []): revision 4 with an empty history, so rev0 = 4. Concrete
input for the stale-revision claims. -/
def docRestart : EditorDoc :=
  { content := ['a', 'b'], revision := 4, history := [] }

/-- A fresh two-character document at revision 0. Concrete input for the
validation claims. -/
def docAB : EditorDoc :=
  { content := ['a', 'b'], revision := 0, history := [] }

/-- A room holding exactly one editor. Concrete input for the
remove_editor claims. -/
def roomOneEditor : Room :=
  { editors := [{ id := 1, name := "main.js".toList, language := "javascript".toList }],
    nextEditorId := 2,
    users := [(5, { username := "alice".toList, color := "red".toList })],
    hostId := 5,
    expiryTimer := none,
    editorDocs := [(1, { content := [], revision := 0, history := [] })] }

/-- A room with a host (socket 5) and two later members (sockets 7 and 9),
in join order. Concrete input for the host-transfer claim. -/
def roomThreeUsers : Room :=
  { editors := [{ id := 1, name := "main.js".toList, language := "javascript".toList }],
    nextEditorId := 2,
    users := [(5, { username := "alice".toList, color := "red".toList }),
              (7, { username := "bob".toList, color := "blue".toList }),
              (9, { username := "eve".toList, color := "green".toList })],
    hostId := 5,
    expiryTimer := none,
    editorDocs := [(1, { content := [], revision := 0, history := [] })] }

/-- A server state with no rooms and no socket registrations. Concrete
input for the not-in-a-room claims. -/
def stEmpty : ServerState :=
  { rooms := [], socketToRoom := [] }

/-- pushHistory always leaves the just-pushed operation as the last history
entry (shift only removes the oldest entry). -/
theorem pushHistory_getLast (h : List Op) (op : Op) :
    (pushHistory h op).getLast? = some op := by
  simp only [pushHistory]
  split
  · cases h with
    | nil => simp_all
    | cons x h2 => simp [List.getLast?_concat]
  · simp [List.getLast?_concat]

/-- pushHistory keeps the history at no more than 100 entries when it was
within the bound before. -/
theorem pushHistory_length (h : List Op) (op : Op) (hle : h.length ≤ 100) :
    (pushHistory h op).length ≤ 100 := by
  simp only [pushHistory]
  split <;> simp_all

/-- C3: the claim states that apply fails with InvalidOperation whenever
retain+delete coverage exceeds the content length and returns the edited
string only when it does not. Counterexample: with content "ab" and the
operation [retain 5] the coverage 5 exceeds the length 2, yet
applyOperation returns the string "ab" (it clamps the read and does not
fail). -/
theorem C3_counterexample :
    ("ab".toList).length < opCoverage [Prim.retain 5] ∧
    applyOperation "ab".toList [Prim.retain 5] = "ab".toList :=
  ⟨by decide, by decide⟩

/-- C3 (amended): applyOperation never fails; when the operation's
retain+delete coverage reaches or exceeds the content length it still
returns the loop's output (reads past the end are clamped and no remainder
is appended). -/
theorem C3_apply_no_failure (str : List Char) (ops : Op)
    (h : str.length ≤ opCoverage ops) :
    applyOperation str ops = applyGo str 0 ops := by
  simp only [applyOperation]
  rw [if_neg (by omega)]

/-- Witness for C3_apply_no_failure at content "ab" and operation
[retain 5]. -/
theorem C3_apply_no_failure_witness :
    ("ab".toList).length ≤ opCoverage [Prim.retain 5] ∧
    applyOperation "ab".toList [Prim.retain 5] = applyGo "ab".toList 0 [Prim.retain 5] :=
  ⟨by decide, C3_apply_no_failure "ab".toList [Prim.retain 5] (by decide)⟩

/-- C9: applyOperation is total (its embedding returns a string for every
input), and when the operation's retain+delete coverage is strictly below
the content length the untouched suffix of the content is appended after
the loop output, so under-covering operations succeed and preserve the
trailing text. -/
theorem C9_apply_appends_remainder (str : List Char) (ops : Op)
    (h : opCoverage ops < str.length) :
    applyOperation str ops = applyGo str 0 ops ++ str.drop (opCoverage ops) := by
  simp only [applyOperation]
  rw [if_pos h]

/-- Witness for C9_apply_appends_remainder at content "abc" and operation
[retain 1]. -/
theorem C9_apply_appends_remainder_witness :
    opCoverage [Prim.retain 1] < ("abc".toList).length ∧
    applyOperation "abc".toList [Prim.retain 1] =
      applyGo "abc".toList 0 [Prim.retain 1] ++ ("abc".toList).drop (opCoverage [Prim.retain 1]) :=
  ⟨by decide, C9_apply_appends_remainder "abc".toList [Prim.retain 1] (by decide)⟩

/-- C4: the claim states validate is true iff the coverage matches AND all
counts are ≥ 1 AND all inserts are non-empty. Counterexample: the operation
[insert ""] with baseLen 0 — validateOperation accepts it although the
spec's condition (specValidate) rejects the empty insert. -/
theorem C4_counterexample :
    validateOperation [Prim.insert []] 0 = true ∧ specValidate [Prim.insert []] 0 = false :=
  ⟨rfl, rfl⟩

/-- C4 (amended): validateOperation returns true iff the sum of retain and
delete counts equals baseLen; it checks neither count positivity nor insert
non-emptiness. -/
theorem C4_validate_iff_coverage (ops : Op) (docLength : Nat) :
    validateOperation ops docLength = true ↔ opCoverage ops = docLength := by
  simp [validateOperation]

/-- C2: the claim states that an ingest whose baseRevision is below rev0
(= revision - |history|) fails with RevisionTooOld leaving the document
unchanged. The code has no such check: on the concrete restarted document
(revision 4, empty history, so rev0 = 4) an operation at baseRevision 2 is
accepted — the negative history slice start is clamped, the operation is
transformed against nothing, applied, and the revision advances to 5. -/
theorem C2_code_behavior :
    applyOperationToDoc docRestart [Prim.insert ['x']] 2 =
      .ok ({ content := ['x', 'a', 'b'], revision := 5, history := [[Prim.insert ['x']]] },
           [Prim.insert ['x']], 5) :=
  rfl

/-- C5: after every successful ingest (baseRevision between rev0 and the
current revision inclusive, history within its bound), the new content is
apply(oldContent, transformedOp), the revision advances by exactly 1, the
history stays within 100 entries and its last entry is the transformed
operation that was applied. -/
theorem C5_ingest_invariants (doc : EditorDoc) (op : Op) (baseRevision : Nat)
    (_h0 : doc.revision - doc.history.length ≤ baseRevision)
    (h1 : baseRevision ≤ doc.revision)
    (h2 : doc.history.length ≤ 100) :
    ∃ doc2 top, applyOperationToDoc doc op baseRevision = .ok (doc2, top, doc.revision + 1) ∧
      doc2.content = applyOperation doc.content top ∧
      doc2.revision = doc.revision + 1 ∧
      doc2.history.length ≤ 100 ∧
      doc2.history.getLast? = some top := by
  unfold applyOperationToDoc
  rcases eq_or_lt_of_le h1 with heq | hlt
  · rw [if_pos heq]
    exact ⟨_, op, rfl, rfl, rfl, pushHistory_length _ _ h2, pushHistory_getLast _ _⟩
  · rw [if_neg (by omega), if_pos hlt]
    exact ⟨_, _, rfl, rfl, rfl, pushHistory_length _ _ h2, pushHistory_getLast _ _⟩

/-- Witness for C5_ingest_invariants: ingest of [insert "x"] at baseRevision
0 into the fresh document docAB. -/
theorem C5_ingest_invariants_witness :
    (docAB.revision - docAB.history.length ≤ 0 ∧ 0 ≤ docAB.revision ∧
     docAB.history.length ≤ 100) ∧
    (∃ doc2 top, applyOperationToDoc docAB [Prim.insert ['x']] 0 = .ok (doc2, top, docAB.revision + 1) ∧
      doc2.content = applyOperation docAB.content top ∧
      doc2.revision = docAB.revision + 1 ∧
      doc2.history.length ≤ 100 ∧
      doc2.history.getLast? = some top) :=
  ⟨⟨by decide, by decide, by decide⟩,
   C5_ingest_invariants docAB [Prim.insert ['x']] 0 (by decide) (by decide) (by decide)⟩

/-- C6: the claim states that an ingest at the current revision whose
operation fails validate(op, currentLength) is rejected with
InvalidOperation and leaves the document unchanged. Counterexample: on the
document "ab" at revision 0, the operation [retain 1] has validate = false
(coverage 1 ≠ 2), yet the ingest succeeds and advances the revision to 1 —
no validation is performed anywhere on the ingest path. -/
theorem C6_counterexample :
    validateOperation [Prim.retain 1] docAB.content.length = false ∧
    applyOperationToDoc docAB [Prim.retain 1] 0 =
      .ok ({ content := ['a', 'b'], revision := 1, history := [[Prim.retain 1]] },
           [Prim.retain 1], 1) :=
  ⟨rfl, rfl⟩

/-- C6 (amended): ingest performs no validation — an operation submitted at
the current revision is applied unconditionally and the ingest succeeds
with revision + 1 even when validate(op, currentLength) is false. -/
theorem C6_no_validation (doc : EditorDoc) (op : Op)
    (_hinvalid : validateOperation op doc.content.length = false) :
    ∃ doc2, applyOperationToDoc doc op doc.revision = .ok (doc2, op, doc.revision + 1) := by
  unfold applyOperationToDoc
  rw [if_pos rfl]
  exact ⟨_, rfl⟩

/-- Witness for C6_no_validation at document docAB and operation
[retain 1]. -/
theorem C6_no_validation_witness :
    validateOperation [Prim.retain 1] docAB.content.length = false ∧
    (∃ doc2, applyOperationToDoc docAB [Prim.retain 1] docAB.revision =
      .ok (doc2, [Prim.retain 1], docAB.revision + 1)) :=
  ⟨rfl, C6_no_validation docAB [Prim.retain 1] rfl⟩

/-- C7: the claim states that removing the only remaining document is a
no-op AND reports an error to the caller. Counterexample: on the concrete
one-editor room, remove_editor leaves the room unchanged and emits no
event at all — in particular no error reaches the caller. -/
theorem C7_counterexample :
    removeEditor roomOneEditor 1 = (roomOneEditor, []) :=
  rfl

/-- C7 (amended): remove_editor deletes the targeted document only when
more than one document remains; when the target is the only remaining
document the command is a no-op — the room's editors list and per-document
states are unchanged and nothing (neither a removal broadcast nor an
error) is emitted; the command is silently ignored. -/
theorem C7_last_editor_silent_noop (room : Room) (editorId : Nat) (e : Editor)
    (hsingle : room.editors = [e]) :
    removeEditor room editorId = (room, []) := by
  simp only [removeEditor, hsingle]
  cases List.findIdx? (fun ed => ed.id == editorId) [e] <;> simp

/-- Witness for C7_last_editor_silent_noop at the concrete one-editor
room. -/
theorem C7_last_editor_silent_noop_witness :
    roomOneEditor.editors =
      [{ id := 1, name := "main.js".toList, language := "javascript".toList }] ∧
    removeEditor roomOneEditor 1 = (roomOneEditor, []) :=
  ⟨rfl, C7_last_editor_silent_noop roomOneEditor 1 _ rfl⟩

/-- C8: when the current host disconnects, if at least one member remains
(the remaining users list is non-empty) the host becomes its first entry —
the oldest remaining member by join order — and host_transferred{newHostId}
is broadcast (followed by user_left); if no member remains the expiry timer
is armed for 30 minutes (30*60*1000 ms). -/
theorem C8_host_transfer (room : Room) (sid : SocketId) (hhost : sid = room.hostId) :
    (∀ next info rest, eraseKey room.users sid = (next, info) :: rest →
       (disconnectFromRoom room sid).1.hostId = next ∧
       (disconnectFromRoom room sid).2 = [SEvent.hostTransferred next, SEvent.userLeft sid]) ∧
    (eraseKey room.users sid = [] →
       (disconnectFromRoom room sid).1.expiryTimer = some (30 * 60 * 1000)) := by
  constructor
  · intro next info rest h
    subst hhost
    simp [disconnectFromRoom, h]
  · intro h
    subst hhost
    simp [disconnectFromRoom, h]

/-- Witness for C8_host_transfer: host 5 of the three-member room
disconnects; the host role moves to 7, the oldest remaining member. -/
theorem C8_host_transfer_witness :
    (5 : SocketId) = roomThreeUsers.hostId ∧
    (disconnectFromRoom roomThreeUsers 5).1.hostId = 7 ∧
    (disconnectFromRoom roomThreeUsers 5).2 =
      [SEvent.hostTransferred 7, SEvent.userLeft 5] :=
  ⟨rfl,
   ((C8_host_transfer roomThreeUsers 5 rfl).1 7
     { username := "bob".toList, color := "blue".toList }
     [(9, { username := "eve".toList, color := "green".toList })] rfl).1,
   ((C8_host_transfer roomThreeUsers 5 rfl).1 7
     { username := "bob".toList, color := "blue".toList }
     [(9, { username := "eve".toList, color := "green".toList })] rfl).2⟩

/-- C10: a kick_user or close_room event from a client that is in no room
makes the handler look up the room under an undefined room code and
dereference the missing room's hostId: the handler throws a TypeError
instead of replying with a room_error, and no room state is modified (the
error escapes before any mutation). -/
theorem C10_not_in_room_type_error (st : ServerState) (sender target : SocketId)
    (h : st.socketToRoom.lookup sender = none) :
    kickUser st sender target = .error .typeError ∧
    closeRoom st sender = .error .typeError := by
  constructor
  · simp [kickUser, h]
  · simp [closeRoom, h]

/-- Witness for C10_not_in_room_type_error on the empty server state. -/
theorem C10_not_in_room_type_error_witness :
    stEmpty.socketToRoom.lookup 0 = none ∧
    kickUser stEmpty 0 1 = .error .typeError ∧
    closeRoom stEmpty 0 = .error .typeError :=
  ⟨rfl, (C10_not_in_room_type_error stEmpty 0 1 rfl).1,
   (C10_not_in_room_type_error stEmpty 0 1 rfl).2⟩

/-- remHead with cursor 0 is the identity. -/
theorem remHead_zero (l : Op) : remHead l 0 = l := by
  cases l with
  | nil => rfl
  | cons p t => cases p <;> rfl

/-- remHead on the empty list. -/
theorem remHead_nil (c : Nat) : remHead [] c = [] := rfl

/-- remHead on a retain head. -/
theorem remHead_retain (n : Nat) (t : Op) (c : Nat) :
    remHead (.retain n :: t) c = .retain (n - c) :: t := rfl

/-- remHead on an insert head. -/
theorem remHead_insert (s : List Char) (t : Op) (c : Nat) :
    remHead (.insert s :: t) c = .insert s :: t := rfl

/-- remHead on a delete head. -/
theorem remHead_delete (n : Nat) (t : Op) (c : Nat) :
    remHead (.delete n :: t) c = .delete (n - c) :: t := rfl

/-- A valid cursor never exceeds the head count. -/
theorem cursorOk_le (l : Op) (c : Nat) (h : cursorOk l c) : c ≤ headCount l := by
  rcases h with rfl | h
  · exact Nat.zero_le _
  · omega

/-- A valid cursor over a countless head (empty list or insert) is 0. -/
theorem cursorOk_eq_zero (l : Op) (c : Nat) (h : cursorOk l c) (h0 : headCount l = 0) :
    c = 0 := by
  rcases h with rfl | h
  · rfl
  · omega

/-- The applyOperation loop as a function of the not-yet-consumed suffix of
the input string. -/
theorem applyGo_eq_applyRem (ops : Op) : ∀ (str : List Char) (cursor : Nat),
    applyGo str cursor ops = applyRem (str.drop cursor) ops := by
  induction ops with
  | nil => intro str cursor; rfl
  | cons p rest ih =>
    intro str cursor
    cases p with
    | retain n => simp [applyGo, applyRem, ih, List.drop_drop]
    | insert s => simp [applyGo, applyRem, ih]
    | delete n => simp [applyGo, applyRem, ih, List.drop_drop]

/-- Merging adjacent same-kind primitives does not change what the
operation does to a string. -/
theorem applyRem_compactGo (rest : Op) : ∀ (cur : Prim) (s : List Char),
    applyRem s (compactGo cur rest) = applyRem s (cur :: rest) := by
  induction rest with
  | nil => intro cur s; cases cur <;> rfl
  | cons next r ih =>
    intro cur s
    cases cur <;> cases next <;>
      simp [compactGo, applyRem, ih, List.take_add, List.drop_drop, List.append_assoc]

/-- compactGo preserves the retain+delete coverage. -/
theorem opCoverage_compactGo (rest : Op) : ∀ (cur : Prim),
    opCoverage (compactGo cur rest) = opCoverage (cur :: rest) := by
  induction rest with
  | nil => intro cur; cases cur <;> rfl
  | cons next r ih =>
    intro cur
    cases cur <;> cases next <;> simp [compactGo, opCoverage, ih] <;> omega

/-- compactOps preserves the effect of an operation on every string. -/
theorem applyRem_compactOps (ops : Op) (s : List Char) :
    applyRem s (compactOps ops) = applyRem s ops := by
  cases ops with
  | nil => rfl
  | cons first rest => exact applyRem_compactGo rest first s

/-- compactOps preserves the retain+delete coverage. -/
theorem opCoverage_compactOps (ops : Op) :
    opCoverage (compactOps ops) = opCoverage ops := by
  cases ops with
  | nil => rfl
  | cons first rest => exact opCoverage_compactGo rest first

/-- Length of the loop output: when the coverage fits in the string, the
result length is the operation's getOpLength. -/
theorem applyRem_length (ops : Op) : ∀ (s : List Char), opCoverage ops ≤ s.length →
    (applyRem s ops).length = getOpLength ops := by
  induction ops with
  | nil => intro s h; rfl
  | cons p rest ih =>
    intro s h
    cases p with
    | retain n =>
      simp only [opCoverage] at h
      have h2 : opCoverage rest ≤ (s.drop n).length := by
        simp only [List.length_drop]; omega
      simp only [applyRem, getOpLength, List.length_append, List.length_take, ih _ h2]
      omega
    | insert t =>
      simp only [opCoverage] at h
      simp only [applyRem, getOpLength, List.length_append, ih _ h]
    | delete n =>
      simp only [opCoverage] at h
      have h2 : opCoverage rest ≤ (s.drop n).length := by
        simp only [List.length_drop]; omega
      simp only [applyRem, getOpLength, ih _ h2]

/-- With exact coverage, applyOperation coincides with the remainder-free
loop semantics (the final remainder append does not fire). -/
theorem applyOperation_eq_applyRem (ops : Op) (s : List Char)
    (h : opCoverage ops = s.length) :
    applyOperation s ops = applyRem s ops := by
  simp only [applyOperation]
  rw [if_neg (by omega), applyGo_eq_applyRem, List.drop_zero]

/-- applyRem on the empty operation. -/
theorem applyRem_nil (s : List Char) : applyRem s [] = [] := rfl

/-- applyRem on a retain head. -/
theorem applyRem_retain (s : List Char) (n : Nat) (t : Op) :
    applyRem s (.retain n :: t) = s.take n ++ applyRem (s.drop n) t := rfl

/-- applyRem on an insert head. -/
theorem applyRem_insert (s : List Char) (txt : List Char) (t : Op) :
    applyRem s (.insert txt :: t) = txt ++ applyRem s t := rfl

/-- applyRem on a delete head. -/
theorem applyRem_delete (s : List Char) (n : Nat) (t : Op) :
    applyRem s (.delete n :: t) = applyRem (s.drop n) t := rfl

/-- A zero-count retain head does nothing. -/
theorem applyRem_retain_zero (s : List Char) (t : Op) :
    applyRem s (.retain 0 :: t) = applyRem s t := by
  simp [applyRem_retain]

/-- A zero-count delete head does nothing. -/
theorem applyRem_delete_zero (s : List Char) (t : Op) :
    applyRem s (.delete 0 :: t) = applyRem s t := by
  simp [applyRem_delete]

/-- Splitting a retain head at k: retaining r characters is retaining k and
then retaining the remaining r - k on the dropped string. -/
theorem applyRem_retain_split (k r : Nat) (t : Op) (s : List Char) (hkr : k ≤ r) :
    applyRem s (.retain r :: t) = s.take k ++ applyRem (s.drop k) (.retain (r - k) :: t) := by
  simp only [applyRem_retain, List.drop_drop]
  rw [← List.append_assoc, ← List.take_add]
  have h1 : k + (r - k) = r := by omega
  rw [h1]

/-- Splitting a delete head at k. -/
theorem applyRem_delete_split (k r : Nat) (t : Op) (s : List Char) (hkr : k ≤ r) :
    applyRem s (.delete r :: t) = applyRem (s.drop k) (.delete (r - k) :: t) := by
  simp only [applyRem_delete, List.drop_drop]
  have h1 : k + (r - k) = r := by omega
  rw [h1]

/-- Retaining exactly the first appended block keeps it unchanged. -/
theorem applyRem_append_retain (p q : List Char) (k : Nat) (t : Op) (hp : p.length = k) :
    applyRem (p ++ q) (.retain k :: t) = p ++ applyRem q t := by
  simp only [applyRem_retain]
  rw [List.take_left' hp, List.drop_left' hp]

/-- Deleting exactly the first appended block removes it. -/
theorem applyRem_append_delete (p q : List Char) (k : Nat) (t : Op) (hp : p.length = k) :
    applyRem (p ++ q) (.delete k :: t) = applyRem q t := by
  simp only [applyRem_delete]
  rw [List.drop_left' hp]

/-- Coverage of the transform loop output: under the loop invariants (valid
cursors, equal remaining retain+delete mass on both sides), the transformed
op1 exactly covers the document produced by the remaining op2, i.e. its
retain+delete sum equals getOpLength of the remaining op2. -/
theorem cov_transformGo (fuel : Nat) :
    ∀ (la : Op) (ca : Nat) (lb : Op) (cb : Nat) (side : Side),
    la.length + lb.length ≤ fuel →
    cursorOk la ca → cursorOk lb cb →
    opCoverage (remHead la ca) = opCoverage (remHead lb cb) →
    opCoverage (transformGo la ca lb cb side) = getOpLength (remHead lb cb) := by
  induction fuel with
  | zero =>
    intro la ca lb cb side hlen hca hcb hmass
    cases la with
    | cons p1 t1 => simp only [List.length_cons, List.length_nil] at hlen; omega
    | nil =>
      cases lb with
      | cons p2 t2 => simp only [List.length_cons, List.length_nil] at hlen; omega
      | nil => simp [transformGo, remHead_nil, opCoverage, getOpLength]
  | succ n ih =>
    intro la ca lb cb side hlen hca hcb hmass
    cases la with
    | nil =>
      have hca0 : ca = 0 := cursorOk_eq_zero _ _ hca rfl
      subst hca0
      cases lb with
      | nil => simp [transformGo, remHead_nil, opCoverage, getOpLength]
      | cons p2 t2 =>
        cases p2 with
        | retain n2 =>
          have hcbD : cb = 0 ∨ cb < n2 := by simpa [cursorOk, headCount] using hcb
          simp only [remHead_nil, remHead_retain, remHead_insert, remHead_delete, opCoverage] at hmass
          have hcb0 : cb = 0 := by rcases hcbD with rfl | h <;> omega
          subst hcb0
          have hn2 : n2 = 0 := by omega
          rw [transformGo.eq_2]
          rw [ih [] 0 t2 0 side
            (by simp only [List.length_cons, List.length_nil] at hlen ⊢; omega)
            (Or.inl rfl) (Or.inl rfl)
            (by simp only [remHead_zero, remHead_nil, remHead_retain, remHead_insert, remHead_delete, opCoverage]; omega)]
          simp only [remHead_zero, remHead_nil, remHead_retain, remHead_insert, remHead_delete, getOpLength]
          omega
        | insert s2 =>
          have hcb0 : cb = 0 := cursorOk_eq_zero _ _ hcb rfl
          subst hcb0
          simp only [remHead_nil, remHead_retain, remHead_insert, remHead_delete, opCoverage] at hmass
          rw [transformGo.eq_3]
          simp only [opCoverage]
          rw [ih [] 0 t2 0 side
            (by simp only [List.length_cons, List.length_nil] at hlen ⊢; omega)
            (Or.inl rfl) (Or.inl rfl)
            (by simp only [remHead_zero, remHead_nil, remHead_retain, remHead_insert, remHead_delete, opCoverage]; omega)]
          simp only [remHead_zero, remHead_nil, remHead_retain, remHead_insert, remHead_delete, getOpLength]
        | delete n2 =>
          have hcbD : cb = 0 ∨ cb < n2 := by simpa [cursorOk, headCount] using hcb
          simp only [remHead_nil, remHead_retain, remHead_insert, remHead_delete, opCoverage] at hmass
          have hcb0 : cb = 0 := by rcases hcbD with rfl | h <;> omega
          subst hcb0
          have hn2 : n2 = 0 := by omega
          rw [transformGo.eq_4]
          rw [ih [] 0 t2 0 side
            (by simp only [List.length_cons, List.length_nil] at hlen ⊢; omega)
            (Or.inl rfl) (Or.inl rfl)
            (by simp only [remHead_zero, remHead_nil, remHead_retain, remHead_insert, remHead_delete, opCoverage]; omega)]
          simp only [remHead_zero, remHead_nil, remHead_retain, remHead_insert, remHead_delete, getOpLength]
    | cons p1 t1 =>
      cases lb with
      | nil =>
        have hcb0 : cb = 0 := cursorOk_eq_zero _ _ hcb rfl
        subst hcb0
        cases p1 with
        | retain n1 =>
          have hcaD : ca = 0 ∨ ca < n1 := by simpa [cursorOk, headCount] using hca
          simp only [remHead_nil, remHead_retain, remHead_insert, remHead_delete, opCoverage] at hmass
          have hca0 : ca = 0 := by rcases hcaD with rfl | h <;> omega
          subst hca0
          have hn1 : n1 = 0 := by omega
          rw [transformGo.eq_5]
          simp only [opCoverage]
          rw [ih t1 0 [] 0 side
            (by simp only [List.length_cons, List.length_nil] at hlen ⊢; omega)
            (Or.inl rfl) (Or.inl rfl)
            (by simp only [remHead_zero, remHead_nil, remHead_retain, remHead_insert, remHead_delete, opCoverage]; omega)]
          simp only [remHead_zero, remHead_nil, remHead_retain, remHead_insert, remHead_delete, getOpLength]
          omega
        | insert s1 =>
          have hca0 : ca = 0 := cursorOk_eq_zero _ _ hca rfl
          subst hca0
          simp only [remHead_nil, remHead_retain, remHead_insert, remHead_delete, opCoverage] at hmass
          rw [transformGo.eq_5]
          simp only [opCoverage]
          rw [ih t1 0 [] 0 side
            (by simp only [List.length_cons, List.length_nil] at hlen ⊢; omega)
            (Or.inl rfl) (Or.inl rfl)
            (by simp only [remHead_zero, remHead_nil, remHead_retain, remHead_insert, remHead_delete, opCoverage]; omega)]
        | delete n1 =>
          have hcaD : ca = 0 ∨ ca < n1 := by simpa [cursorOk, headCount] using hca
          simp only [remHead_nil, remHead_retain, remHead_insert, remHead_delete, opCoverage] at hmass
          have hca0 : ca = 0 := by rcases hcaD with rfl | h <;> omega
          subst hca0
          have hn1 : n1 = 0 := by omega
          rw [transformGo.eq_5]
          simp only [opCoverage]
          rw [ih t1 0 [] 0 side
            (by simp only [List.length_cons, List.length_nil] at hlen ⊢; omega)
            (Or.inl rfl) (Or.inl rfl)
            (by simp only [remHead_zero, remHead_nil, remHead_retain, remHead_insert, remHead_delete, opCoverage]; omega)]
          simp only [remHead_zero, remHead_nil, remHead_retain, remHead_insert, remHead_delete, getOpLength]
          omega
      | cons p2 t2 =>
        cases p1 with
        | insert s1 =>
          have hca0 : ca = 0 := cursorOk_eq_zero _ _ hca rfl
          subst hca0
          cases p2 with
          | insert s2 =>
            have hcb0 : cb = 0 := cursorOk_eq_zero _ _ hcb rfl
            subst hcb0
            simp only [remHead_nil, remHead_retain, remHead_insert, remHead_delete, opCoverage] at hmass
            cases side with
            | left =>
              rw [transformGo.eq_6]
              simp only [opCoverage]
              rw [ih (.insert s1 :: t1) 0 t2 0 .left
                (by simp only [List.length_cons, List.length_nil] at hlen ⊢; omega)
                (Or.inl rfl) (Or.inl rfl)
                (by simp only [remHead_zero, remHead_nil, remHead_retain, remHead_insert, remHead_delete, opCoverage]; omega)]
              simp only [remHead_zero, remHead_nil, remHead_retain, remHead_insert, remHead_delete, getOpLength]
            | right =>
              rw [transformGo.eq_7]
              simp only [opCoverage]
              rw [ih t1 0 (.insert s2 :: t2) 0 .right
                (by simp only [List.length_cons, List.length_nil] at hlen ⊢; omega)
                (Or.inl rfl) (Or.inl rfl)
                (by simp only [remHead_zero, remHead_nil, remHead_retain, remHead_insert, remHead_delete, opCoverage]; omega)]
          | retain n2 =>
            rw [transformGo.eq_8]
            simp only [opCoverage]
            rw [ih t1 0 (.retain n2 :: t2) cb side
              (by simp only [List.length_cons, List.length_nil] at hlen ⊢; omega)
              (Or.inl rfl) hcb
              (by simp only [remHead_zero, remHead_nil, remHead_retain, remHead_insert, remHead_delete, opCoverage] at hmass ⊢; omega)]
          | delete n2 =>
            rw [transformGo.eq_9]
            simp only [opCoverage]
            rw [ih t1 0 (.delete n2 :: t2) cb side
              (by simp only [List.length_cons, List.length_nil] at hlen ⊢; omega)
              (Or.inl rfl) hcb
              (by simp only [remHead_zero, remHead_nil, remHead_retain, remHead_insert, remHead_delete, opCoverage] at hmass ⊢; omega)]
        | retain n1 =>
          cases p2 with
          | insert s2 =>
            have hcb0 : cb = 0 := cursorOk_eq_zero _ _ hcb rfl
            subst hcb0
            rw [transformGo.eq_10]
            simp only [opCoverage]
            rw [ih (.retain n1 :: t1) ca t2 0 side
              (by simp only [List.length_cons, List.length_nil] at hlen ⊢; omega)
              hca (Or.inl rfl)
              (by simp only [remHead_zero, remHead_nil, remHead_retain, remHead_insert, remHead_delete, opCoverage] at hmass ⊢; omega)]
            simp only [remHead_zero, remHead_nil, remHead_retain, remHead_insert, remHead_delete, getOpLength]
          | retain n2 =>
            have hcaD : ca = 0 ∨ ca < n1 := by simpa [cursorOk, headCount] using hca
            have hcbD : cb = 0 ∨ cb < n2 := by simpa [cursorOk, headCount] using hcb
            have hca2 : ca ≤ n1 := by rcases hcaD with rfl | h <;> omega
            have hcb2 : cb ≤ n2 := by rcases hcbD with rfl | h <;> omega
            simp only [remHead_nil, remHead_retain, remHead_insert, remHead_delete, opCoverage] at hmass
            rw [transformGo.eq_12]
            simp only [opCoverage]
            split_ifs with h1 h2 h2
            · rw [ih t1 0 t2 0 side
                (by simp only [List.length_cons, List.length_nil] at hlen ⊢; omega)
                (Or.inl rfl) (Or.inl rfl)
                (by simp only [remHead_zero, remHead_nil, remHead_retain, remHead_insert, remHead_delete, opCoverage]; omega)]
              simp only [remHead_zero, remHead_nil, remHead_retain, remHead_insert, remHead_delete, getOpLength]
              omega
            · rw [ih t1 0 (.retain n2 :: t2) (cb + min (n1 - ca) (n2 - cb)) side
                (by simp only [List.length_cons, List.length_nil] at hlen ⊢; omega)
                (Or.inl rfl) (Or.inr (by simp only [headCount]; omega))
                (by simp only [remHead_zero, remHead_nil, remHead_retain, remHead_insert, remHead_delete, opCoverage]; omega)]
              simp only [remHead_retain, remHead_insert, remHead_delete, getOpLength]
              omega
            · rw [ih (.retain n1 :: t1) (ca + min (n1 - ca) (n2 - cb)) t2 0 side
                (by simp only [List.length_cons, List.length_nil] at hlen ⊢; omega)
                (Or.inr (by simp only [headCount]; omega)) (Or.inl rfl)
                (by simp only [remHead_zero, remHead_nil, remHead_retain, remHead_insert, remHead_delete, opCoverage]; omega)]
              simp only [remHead_zero, remHead_nil, remHead_retain, remHead_insert, remHead_delete, getOpLength]
              omega
            · omega
          | delete n2 =>
            have hcaD : ca = 0 ∨ ca < n1 := by simpa [cursorOk, headCount] using hca
            have hcbD : cb = 0 ∨ cb < n2 := by simpa [cursorOk, headCount] using hcb
            have hca2 : ca ≤ n1 := by rcases hcaD with rfl | h <;> omega
            have hcb2 : cb ≤ n2 := by rcases hcbD with rfl | h <;> omega
            simp only [remHead_nil, remHead_retain, remHead_insert, remHead_delete, opCoverage] at hmass
            rw [transformGo.eq_13]
            split_ifs with h1 h2 h2
            · rw [ih t1 0 t2 0 side
                (by simp only [List.length_cons, List.length_nil] at hlen ⊢; omega)
                (Or.inl rfl) (Or.inl rfl)
                (by simp only [remHead_zero, remHead_nil, remHead_retain, remHead_insert, remHead_delete, opCoverage]; omega)]
              simp only [remHead_zero, remHead_nil, remHead_retain, remHead_insert, remHead_delete, getOpLength]
            · rw [ih t1 0 (.delete n2 :: t2) (cb + min (n1 - ca) (n2 - cb)) side
                (by simp only [List.length_cons, List.length_nil] at hlen ⊢; omega)
                (Or.inl rfl) (Or.inr (by simp only [headCount]; omega))
                (by simp only [remHead_zero, remHead_nil, remHead_retain, remHead_insert, remHead_delete, opCoverage]; omega)]
              simp only [remHead_retain, remHead_insert, remHead_delete, getOpLength]
            · rw [ih (.retain n1 :: t1) (ca + min (n1 - ca) (n2 - cb)) t2 0 side
                (by simp only [List.length_cons, List.length_nil] at hlen ⊢; omega)
                (Or.inr (by simp only [headCount]; omega)) (Or.inl rfl)
                (by simp only [remHead_zero, remHead_nil, remHead_retain, remHead_insert, remHead_delete, opCoverage]; omega)]
              simp only [remHead_zero, remHead_nil, remHead_retain, remHead_insert, remHead_delete, getOpLength]
            · omega
        | delete n1 =>
          cases p2 with
          | insert s2 =>
            have hcb0 : cb = 0 := cursorOk_eq_zero _ _ hcb rfl
            subst hcb0
            rw [transformGo.eq_11]
            simp only [opCoverage]
            rw [ih (.delete n1 :: t1) ca t2 0 side
              (by simp only [List.length_cons, List.length_nil] at hlen ⊢; omega)
              hca (Or.inl rfl)
              (by simp only [remHead_zero, remHead_nil, remHead_retain, remHead_insert, remHead_delete, opCoverage] at hmass ⊢; omega)]
            simp only [remHead_zero, remHead_nil, remHead_retain, remHead_insert, remHead_delete, getOpLength]
          | retain n2 =>
            have hcaD : ca = 0 ∨ ca < n1 := by simpa [cursorOk, headCount] using hca
            have hcbD : cb = 0 ∨ cb < n2 := by simpa [cursorOk, headCount] using hcb
            have hca2 : ca ≤ n1 := by rcases hcaD with rfl | h <;> omega
            have hcb2 : cb ≤ n2 := by rcases hcbD with rfl | h <;> omega
            simp only [remHead_nil, remHead_retain, remHead_insert, remHead_delete, opCoverage] at hmass
            rw [transformGo.eq_14]
            simp only [opCoverage]
            split_ifs with h1 h2 h2
            · rw [ih t1 0 t2 0 side
                (by simp only [List.length_cons, List.length_nil] at hlen ⊢; omega)
                (Or.inl rfl) (Or.inl rfl)
                (by simp only [remHead_zero, remHead_nil, remHead_retain, remHead_insert, remHead_delete, opCoverage]; omega)]
              simp only [remHead_zero, remHead_nil, remHead_retain, remHead_insert, remHead_delete, getOpLength]
              omega
            · rw [ih t1 0 (.retain n2 :: t2) (cb + min (n1 - ca) (n2 - cb)) side
                (by simp only [List.length_cons, List.length_nil] at hlen ⊢; omega)
                (Or.inl rfl) (Or.inr (by simp only [headCount]; omega))
                (by simp only [remHead_zero, remHead_nil, remHead_retain, remHead_insert, remHead_delete, opCoverage]; omega)]
              simp only [remHead_retain, remHead_insert, remHead_delete, getOpLength]
              omega
            · rw [ih (.delete n1 :: t1) (ca + min (n1 - ca) (n2 - cb)) t2 0 side
                (by simp only [List.length_cons, List.length_nil] at hlen ⊢; omega)
                (Or.inr (by simp only [headCount]; omega)) (Or.inl rfl)
                (by simp only [remHead_zero, remHead_nil, remHead_retain, remHead_insert, remHead_delete, opCoverage]; omega)]
              simp only [remHead_zero, remHead_nil, remHead_retain, remHead_insert, remHead_delete, getOpLength]
              omega
            · omega
          | delete n2 =>
            have hcaD : ca = 0 ∨ ca < n1 := by simpa [cursorOk, headCount] using hca
            have hcbD : cb = 0 ∨ cb < n2 := by simpa [cursorOk, headCount] using hcb
            have hca2 : ca ≤ n1 := by rcases hcaD with rfl | h <;> omega
            have hcb2 : cb ≤ n2 := by rcases hcbD with rfl | h <;> omega
            simp only [remHead_nil, remHead_retain, remHead_insert, remHead_delete, opCoverage] at hmass
            rw [transformGo.eq_15]
            split_ifs with h1 h2 h2
            · rw [ih t1 0 t2 0 side
                (by simp only [List.length_cons, List.length_nil] at hlen ⊢; omega)
                (Or.inl rfl) (Or.inl rfl)
                (by simp only [remHead_zero, remHead_nil, remHead_retain, remHead_insert, remHead_delete, opCoverage]; omega)]
              simp only [remHead_zero, remHead_nil, remHead_retain, remHead_insert, remHead_delete, getOpLength]
            · rw [ih t1 0 (.delete n2 :: t2) (cb + min (n1 - ca) (n2 - cb)) side
                (by simp only [List.length_cons, List.length_nil] at hlen ⊢; omega)
                (Or.inl rfl) (Or.inr (by simp only [headCount]; omega))
                (by simp only [remHead_zero, remHead_nil, remHead_retain, remHead_insert, remHead_delete, opCoverage]; omega)]
              simp only [remHead_retain, remHead_insert, remHead_delete, getOpLength]
            · rw [ih (.delete n1 :: t1) (ca + min (n1 - ca) (n2 - cb)) t2 0 side
                (by simp only [List.length_cons, List.length_nil] at hlen ⊢; omega)
                (Or.inr (by simp only [headCount]; omega)) (Or.inl rfl)
                (by simp only [remHead_zero, remHead_nil, remHead_retain, remHead_insert, remHead_delete, opCoverage]; omega)]
              simp only [remHead_zero, remHead_nil, remHead_retain, remHead_insert, remHead_delete, getOpLength]
            · omega

/-- TP1 for the transform loop: from any reachable pair of loop states with
valid cursors and with equal remaining retain+delete mass equal to the
length of the remaining document, applying the remaining op1 and then the
right-transformed remaining op2 gives the same string as applying the
remaining op2 and then the left-transformed remaining op1. -/
theorem tp1_transformGo (fuel : Nat) :
    ∀ (la : Op) (ca : Nat) (lb : Op) (cb : Nat) (s : List Char),
    la.length + lb.length ≤ fuel →
    cursorOk la ca → cursorOk lb cb →
    opCoverage (remHead la ca) = s.length →
    opCoverage (remHead lb cb) = s.length →
    applyRem (applyRem s (remHead la ca)) (transformGo lb cb la ca .right)
      = applyRem (applyRem s (remHead lb cb)) (transformGo la ca lb cb .left) := by
  induction fuel with
  | zero =>
    intro la ca lb cb s hlen hca hcb hma hmb
    cases la with
    | cons p1 t1 => simp only [List.length_cons, List.length_nil] at hlen; omega
    | nil =>
      cases lb with
      | cons p2 t2 => simp only [List.length_cons, List.length_nil] at hlen; omega
      | nil => simp [transformGo, remHead_nil, applyRem_nil]
  | succ n ih =>
    intro la ca lb cb s hlen hca hcb hma hmb
    cases la with
    | nil =>
      have hca0 : ca = 0 := cursorOk_eq_zero _ _ hca rfl
      subst hca0
      cases lb with
      | nil => simp [transformGo, remHead_nil, applyRem_nil]
      | cons p2 t2 =>
        cases p2 with
        | retain n2 =>
          have hcbD : cb = 0 ∨ cb < n2 := by simpa [cursorOk, headCount] using hcb
          simp only [remHead_nil, remHead_retain, opCoverage] at hma hmb
          have hcb0 : cb = 0 := by rcases hcbD with rfl | h <;> omega
          subst hcb0
          have hn2 : n2 = 0 := by omega
          subst hn2
          have hs : s = [] := List.length_eq_zero.mp (by omega)
          subst hs
          rw [transformGo.eq_5, transformGo.eq_2]
          simp only [remHead_nil, remHead_retain, Nat.sub_zero, applyRem_nil,
            applyRem_retain_zero]
          have key := ih [] 0 t2 0 []
            (by simp only [List.length_cons, List.length_nil] at hlen ⊢; omega)
            (Or.inl rfl) (Or.inl rfl)
            rfl
            (by simp only [remHead_zero, List.length_nil]; omega)
          simp only [remHead_zero, remHead_nil, applyRem_nil] at key
          exact key
        | insert s2 =>
          have hcb0 : cb = 0 := cursorOk_eq_zero _ _ hcb rfl
          subst hcb0
          simp only [remHead_nil, remHead_insert, opCoverage] at hma hmb
          have hs : s = [] := List.length_eq_zero.mp (by omega)
          subst hs
          rw [transformGo.eq_5, transformGo.eq_3]
          simp only [remHead_nil, remHead_insert, applyRem_nil, applyRem_insert]
          rw [applyRem_append_retain _ _ _ _ rfl]
          have key := ih [] 0 t2 0 []
            (by simp only [List.length_cons, List.length_nil] at hlen ⊢; omega)
            (Or.inl rfl) (Or.inl rfl)
            rfl
            (by simp only [remHead_zero, List.length_nil]; omega)
          simp only [remHead_zero, remHead_nil, applyRem_nil] at key
          rw [key]
        | delete n2 =>
          have hcbD : cb = 0 ∨ cb < n2 := by simpa [cursorOk, headCount] using hcb
          simp only [remHead_nil, remHead_delete, opCoverage] at hma hmb
          have hcb0 : cb = 0 := by rcases hcbD with rfl | h <;> omega
          subst hcb0
          have hn2 : n2 = 0 := by omega
          subst hn2
          have hs : s = [] := List.length_eq_zero.mp (by omega)
          subst hs
          rw [transformGo.eq_5, transformGo.eq_4]
          simp only [remHead_nil, remHead_delete, Nat.sub_zero, applyRem_nil,
            applyRem_delete_zero]
          have key := ih [] 0 t2 0 []
            (by simp only [List.length_cons, List.length_nil] at hlen ⊢; omega)
            (Or.inl rfl) (Or.inl rfl)
            rfl
            (by simp only [remHead_zero, List.length_nil]; omega)
          simp only [remHead_zero, remHead_nil, applyRem_nil] at key
          exact key
    | cons p1 t1 =>
      cases lb with
      | nil =>
        have hcb0 : cb = 0 := cursorOk_eq_zero _ _ hcb rfl
        subst hcb0
        cases p1 with
        | retain n1 =>
          have hcaD : ca = 0 ∨ ca < n1 := by simpa [cursorOk, headCount] using hca
          simp only [remHead_nil, remHead_retain, opCoverage] at hma hmb
          have hca0 : ca = 0 := by rcases hcaD with rfl | h <;> omega
          subst hca0
          have hn1 : n1 = 0 := by omega
          subst hn1
          have hs : s = [] := List.length_eq_zero.mp (by omega)
          subst hs
          rw [transformGo.eq_2, transformGo.eq_5]
          simp only [remHead_nil, remHead_retain, Nat.sub_zero, applyRem_nil,
            applyRem_retain_zero]
          have key := ih t1 0 [] 0 []
            (by simp only [List.length_cons, List.length_nil] at hlen ⊢; omega)
            (Or.inl rfl) (Or.inl rfl)
            (by simp only [remHead_zero, List.length_nil]; omega)
            rfl
          simp only [remHead_zero, remHead_nil, applyRem_nil] at key
          exact key
        | insert s1 =>
          have hca0 : ca = 0 := cursorOk_eq_zero _ _ hca rfl
          subst hca0
          simp only [remHead_nil, remHead_insert, opCoverage] at hma hmb
          have hs : s = [] := List.length_eq_zero.mp (by omega)
          subst hs
          rw [transformGo.eq_3, transformGo.eq_5]
          simp only [remHead_nil, remHead_insert, applyRem_nil, applyRem_insert]
          rw [applyRem_append_retain _ _ _ _ rfl]
          have key := ih t1 0 [] 0 []
            (by simp only [List.length_cons, List.length_nil] at hlen ⊢; omega)
            (Or.inl rfl) (Or.inl rfl)
            (by simp only [remHead_zero, List.length_nil]; omega)
            rfl
          simp only [remHead_zero, remHead_nil, applyRem_nil] at key
          rw [key]
        | delete n1 =>
          have hcaD : ca = 0 ∨ ca < n1 := by simpa [cursorOk, headCount] using hca
          simp only [remHead_nil, remHead_delete, opCoverage] at hma hmb
          have hca0 : ca = 0 := by rcases hcaD with rfl | h <;> omega
          subst hca0
          have hn1 : n1 = 0 := by omega
          subst hn1
          have hs : s = [] := List.length_eq_zero.mp (by omega)
          subst hs
          rw [transformGo.eq_4, transformGo.eq_5]
          simp only [remHead_nil, remHead_delete, Nat.sub_zero, applyRem_nil,
            applyRem_delete_zero]
          have key := ih t1 0 [] 0 []
            (by simp only [List.length_cons, List.length_nil] at hlen ⊢; omega)
            (Or.inl rfl) (Or.inl rfl)
            (by simp only [remHead_zero, List.length_nil]; omega)
            rfl
          simp only [remHead_zero, remHead_nil, applyRem_nil] at key
          exact key
      | cons p2 t2 =>
        cases p1 with
        | insert s1 =>
          have hca0 : ca = 0 := cursorOk_eq_zero _ _ hca rfl
          subst hca0
          cases p2 with
          | insert s2 =>
            have hcb0 : cb = 0 := cursorOk_eq_zero _ _ hcb rfl
            subst hcb0
            simp only [remHead_insert, opCoverage] at hma hmb
            rw [transformGo.eq_7, transformGo.eq_6]
            simp only [remHead_insert, applyRem_insert]
            rw [applyRem_append_retain _ _ _ _ rfl]
            have key := ih (.insert s1 :: t1) 0 t2 0 s
              (by simp only [List.length_cons, List.length_nil] at hlen ⊢; omega)
              (Or.inl rfl) (Or.inl rfl)
              (by simp only [remHead_insert, opCoverage]; omega)
              (by simp only [remHead_zero]; omega)
            simp only [remHead_zero, remHead_insert, applyRem_insert] at key
            rw [key]
          | retain n2 =>
            simp only [remHead_insert, remHead_retain, opCoverage] at hma hmb
            rw [transformGo.eq_10, transformGo.eq_8]
            simp only [remHead_insert, remHead_retain, applyRem_insert]
            rw [applyRem_append_retain _ _ _ _ rfl]
            have key := ih t1 0 (.retain n2 :: t2) cb s
              (by simp only [List.length_cons, List.length_nil] at hlen ⊢; omega)
              (Or.inl rfl) hcb
              (by simp only [remHead_zero]; omega)
              (by simp only [remHead_retain, opCoverage]; omega)
            simp only [remHead_zero, remHead_retain] at key
            rw [key]
          | delete n2 =>
            simp only [remHead_insert, remHead_delete, opCoverage] at hma hmb
            rw [transformGo.eq_11, transformGo.eq_9]
            simp only [remHead_insert, remHead_delete, applyRem_insert]
            rw [applyRem_append_retain _ _ _ _ rfl]
            have key := ih t1 0 (.delete n2 :: t2) cb s
              (by simp only [List.length_cons, List.length_nil] at hlen ⊢; omega)
              (Or.inl rfl) hcb
              (by simp only [remHead_zero]; omega)
              (by simp only [remHead_delete, opCoverage]; omega)
            simp only [remHead_zero, remHead_delete] at key
            rw [key]
        | retain n1 =>
          cases p2 with
          | insert s2 =>
            have hcb0 : cb = 0 := cursorOk_eq_zero _ _ hcb rfl
            subst hcb0
            simp only [remHead_retain, remHead_insert, opCoverage] at hma hmb
            rw [transformGo.eq_8, transformGo.eq_10]
            simp only [remHead_retain, remHead_insert, applyRem_insert]
            rw [applyRem_append_retain _ _ _ _ rfl]
            have key := ih (.retain n1 :: t1) ca t2 0 s
              (by simp only [List.length_cons, List.length_nil] at hlen ⊢; omega)
              hca (Or.inl rfl)
              (by simp only [remHead_retain, opCoverage]; omega)
              (by simp only [remHead_zero]; omega)
            simp only [remHead_zero, remHead_retain] at key
            rw [key]
          | retain n2 =>
            have hcaD : ca = 0 ∨ ca < n1 := by simpa [cursorOk, headCount] using hca
            have hcbD : cb = 0 ∨ cb < n2 := by simpa [cursorOk, headCount] using hcb
            have hca2 : ca ≤ n1 := by rcases hcaD with rfl | h <;> omega
            have hcb2 : cb ≤ n2 := by rcases hcbD with rfl | h <;> omega
            simp only [remHead_retain, opCoverage] at hma hmb
            simp only [remHead_retain]
            rw [transformGo.eq_12, transformGo.eq_12, Nat.min_comm (n2 - cb) (n1 - ca)]
            split_ifs
            · rw [applyRem_retain_split (min (n1 - ca) (n2 - cb)) (n1 - ca) t1 s
                  (Nat.min_le_left _ _)]
              rw [applyRem_retain_split (min (n1 - ca) (n2 - cb)) (n2 - cb) t2 s
                  (Nat.min_le_right _ _)]
              have e1 : n1 - ca - min (n1 - ca) (n2 - cb) = 0 := by omega
              have e2 : n2 - cb - min (n1 - ca) (n2 - cb) = 0 := by omega
              rw [e1, e2, applyRem_retain_zero, applyRem_retain_zero]
              rw [applyRem_append_retain _ _ _ _ (by rw [List.length_take]; omega),
                  applyRem_append_retain _ _ _ _ (by rw [List.length_take]; omega)]
              have key := ih t1 0 t2 0 (s.drop (min (n1 - ca) (n2 - cb)))
                (by simp only [List.length_cons, List.length_nil] at hlen ⊢; omega)
                (Or.inl rfl) (Or.inl rfl)
                (by simp only [remHead_zero, List.length_drop]; omega)
                (by simp only [remHead_zero, List.length_drop]; omega)
              simp only [remHead_zero] at key
              rw [key]
            · rw [applyRem_retain_split (min (n1 - ca) (n2 - cb)) (n1 - ca) t1 s
                  (Nat.min_le_left _ _)]
              rw [applyRem_retain_split (min (n1 - ca) (n2 - cb)) (n2 - cb) t2 s
                  (Nat.min_le_right _ _)]
              have e2 : n2 - cb - min (n1 - ca) (n2 - cb) = 0 := by omega
              rw [e2, applyRem_retain_zero]
              rw [applyRem_append_retain _ _ _ _ (by rw [List.length_take]; omega),
                  applyRem_append_retain _ _ _ _ (by rw [List.length_take]; omega)]
              have key := ih (.retain n1 :: t1) (ca + min (n1 - ca) (n2 - cb)) t2 0
                (s.drop (min (n1 - ca) (n2 - cb)))
                (by simp only [List.length_cons, List.length_nil] at hlen ⊢; omega)
                (Or.inr (by simp only [headCount]; omega)) (Or.inl rfl)
                (by simp only [remHead_retain, opCoverage, List.length_drop]; omega)
                (by simp only [remHead_zero, List.length_drop]; omega)
              simp only [remHead_zero, remHead_retain] at key
              have e1 : n1 - (ca + min (n1 - ca) (n2 - cb))
                  = n1 - ca - min (n1 - ca) (n2 - cb) := by omega
              rw [e1] at key
              rw [key]
            · rw [applyRem_retain_split (min (n1 - ca) (n2 - cb)) (n1 - ca) t1 s
                  (Nat.min_le_left _ _)]
              rw [applyRem_retain_split (min (n1 - ca) (n2 - cb)) (n2 - cb) t2 s
                  (Nat.min_le_right _ _)]
              have e1 : n1 - ca - min (n1 - ca) (n2 - cb) = 0 := by omega
              rw [e1, applyRem_retain_zero]
              rw [applyRem_append_retain _ _ _ _ (by rw [List.length_take]; omega),
                  applyRem_append_retain _ _ _ _ (by rw [List.length_take]; omega)]
              have key := ih t1 0 (.retain n2 :: t2) (cb + min (n1 - ca) (n2 - cb))
                (s.drop (min (n1 - ca) (n2 - cb)))
                (by simp only [List.length_cons, List.length_nil] at hlen ⊢; omega)
                (Or.inl rfl) (Or.inr (by simp only [headCount]; omega))
                (by simp only [remHead_zero, List.length_drop]; omega)
                (by simp only [remHead_retain, opCoverage, List.length_drop]; omega)
              simp only [remHead_zero, remHead_retain] at key
              have e2 : n2 - (cb + min (n1 - ca) (n2 - cb))
                  = n2 - cb - min (n1 - ca) (n2 - cb) := by omega
              rw [e2] at key
              rw [key]
            · exfalso; omega
          | delete n2 =>
            have hcaD : ca = 0 ∨ ca < n1 := by simpa [cursorOk, headCount] using hca
            have hcbD : cb = 0 ∨ cb < n2 := by simpa [cursorOk, headCount] using hcb
            have hca2 : ca ≤ n1 := by rcases hcaD with rfl | h <;> omega
            have hcb2 : cb ≤ n2 := by rcases hcbD with rfl | h <;> omega
            simp only [remHead_retain, remHead_delete, opCoverage] at hma hmb
            simp only [remHead_retain, remHead_delete]
            rw [transformGo.eq_14, transformGo.eq_13, Nat.min_comm (n2 - cb) (n1 - ca)]
            split_ifs
            · rw [applyRem_retain_split (min (n1 - ca) (n2 - cb)) (n1 - ca) t1 s
                  (Nat.min_le_left _ _)]
              rw [applyRem_delete_split (min (n1 - ca) (n2 - cb)) (n2 - cb) t2 s
                  (Nat.min_le_right _ _)]
              have e1 : n1 - ca - min (n1 - ca) (n2 - cb) = 0 := by omega
              have e2 : n2 - cb - min (n1 - ca) (n2 - cb) = 0 := by omega
              rw [e1, e2, applyRem_retain_zero, applyRem_delete_zero]
              rw [applyRem_append_delete _ _ _ _ (by rw [List.length_take]; omega)]
              have key := ih t1 0 t2 0 (s.drop (min (n1 - ca) (n2 - cb)))
                (by simp only [List.length_cons, List.length_nil] at hlen ⊢; omega)
                (Or.inl rfl) (Or.inl rfl)
                (by simp only [remHead_zero, List.length_drop]; omega)
                (by simp only [remHead_zero, List.length_drop]; omega)
              simp only [remHead_zero] at key
              exact key
            · rw [applyRem_retain_split (min (n1 - ca) (n2 - cb)) (n1 - ca) t1 s
                  (Nat.min_le_left _ _)]
              rw [applyRem_delete_split (min (n1 - ca) (n2 - cb)) (n2 - cb) t2 s
                  (Nat.min_le_right _ _)]
              have e2 : n2 - cb - min (n1 - ca) (n2 - cb) = 0 := by omega
              rw [e2, applyRem_delete_zero]
              rw [applyRem_append_delete _ _ _ _ (by rw [List.length_take]; omega)]
              have key := ih (.retain n1 :: t1) (ca + min (n1 - ca) (n2 - cb)) t2 0
                (s.drop (min (n1 - ca) (n2 - cb)))
                (by simp only [List.length_cons, List.length_nil] at hlen ⊢; omega)
                (Or.inr (by simp only [headCount]; omega)) (Or.inl rfl)
                (by simp only [remHead_retain, opCoverage, List.length_drop]; omega)
                (by simp only [remHead_zero, List.length_drop]; omega)
              simp only [remHead_zero, remHead_retain] at key
              have e1 : n1 - (ca + min (n1 - ca) (n2 - cb))
                  = n1 - ca - min (n1 - ca) (n2 - cb) := by omega
              rw [e1] at key
              exact key
            · rw [applyRem_retain_split (min (n1 - ca) (n2 - cb)) (n1 - ca) t1 s
                  (Nat.min_le_left _ _)]
              rw [applyRem_delete_split (min (n1 - ca) (n2 - cb)) (n2 - cb) t2 s
                  (Nat.min_le_right _ _)]
              have e1 : n1 - ca - min (n1 - ca) (n2 - cb) = 0 := by omega
              rw [e1, applyRem_retain_zero]
              rw [applyRem_append_delete _ _ _ _ (by rw [List.length_take]; omega)]
              have key := ih t1 0 (.delete n2 :: t2) (cb + min (n1 - ca) (n2 - cb))
                (s.drop (min (n1 - ca) (n2 - cb)))
                (by simp only [List.length_cons, List.length_nil] at hlen ⊢; omega)
                (Or.inl rfl) (Or.inr (by simp only [headCount]; omega))
                (by simp only [remHead_zero, List.length_drop]; omega)
                (by simp only [remHead_delete, opCoverage, List.length_drop]; omega)
              simp only [remHead_zero, remHead_delete] at key
              have e2 : n2 - (cb + min (n1 - ca) (n2 - cb))
                  = n2 - cb - min (n1 - ca) (n2 - cb) := by omega
              rw [e2] at key
              exact key
            · exfalso; omega
        | delete n1 =>
          cases p2 with
          | insert s2 =>
            have hcb0 : cb = 0 := cursorOk_eq_zero _ _ hcb rfl
            subst hcb0
            simp only [remHead_delete, remHead_insert, opCoverage] at hma hmb
            rw [transformGo.eq_9, transformGo.eq_11]
            simp only [remHead_delete, remHead_insert, applyRem_insert]
            rw [applyRem_append_retain _ _ _ _ rfl]
            have key := ih (.delete n1 :: t1) ca t2 0 s
              (by simp only [List.length_cons, List.length_nil] at hlen ⊢; omega)
              hca (Or.inl rfl)
              (by simp only [remHead_delete, opCoverage]; omega)
              (by simp only [remHead_zero]; omega)
            simp only [remHead_zero, remHead_delete] at key
            rw [key]
          | retain n2 =>
            have hcaD : ca = 0 ∨ ca < n1 := by simpa [cursorOk, headCount] using hca
            have hcbD : cb = 0 ∨ cb < n2 := by simpa [cursorOk, headCount] using hcb
            have hca2 : ca ≤ n1 := by rcases hcaD with rfl | h <;> omega
            have hcb2 : cb ≤ n2 := by rcases hcbD with rfl | h <;> omega
            simp only [remHead_delete, remHead_retain, opCoverage] at hma hmb
            simp only [remHead_delete, remHead_retain]
            rw [transformGo.eq_13, transformGo.eq_14, Nat.min_comm (n2 - cb) (n1 - ca)]
            split_ifs
            · rw [applyRem_delete_split (min (n1 - ca) (n2 - cb)) (n1 - ca) t1 s
                  (Nat.min_le_left _ _)]
              rw [applyRem_retain_split (min (n1 - ca) (n2 - cb)) (n2 - cb) t2 s
                  (Nat.min_le_right _ _)]
              have e1 : n1 - ca - min (n1 - ca) (n2 - cb) = 0 := by omega
              have e2 : n2 - cb - min (n1 - ca) (n2 - cb) = 0 := by omega
              rw [e1, e2, applyRem_delete_zero, applyRem_retain_zero]
              rw [applyRem_append_delete _ _ _ _ (by rw [List.length_take]; omega)]
              have key := ih t1 0 t2 0 (s.drop (min (n1 - ca) (n2 - cb)))
                (by simp only [List.length_cons, List.length_nil] at hlen ⊢; omega)
                (Or.inl rfl) (Or.inl rfl)
                (by simp only [remHead_zero, List.length_drop]; omega)
                (by simp only [remHead_zero, List.length_drop]; omega)
              simp only [remHead_zero] at key
              exact key
            · rw [applyRem_delete_split (min (n1 - ca) (n2 - cb)) (n1 - ca) t1 s
                  (Nat.min_le_left _ _)]
              rw [applyRem_retain_split (min (n1 - ca) (n2 - cb)) (n2 - cb) t2 s
                  (Nat.min_le_right _ _)]
              have e2 : n2 - cb - min (n1 - ca) (n2 - cb) = 0 := by omega
              rw [e2, applyRem_retain_zero]
              rw [applyRem_append_delete _ _ _ _ (by rw [List.length_take]; omega)]
              have key := ih (.delete n1 :: t1) (ca + min (n1 - ca) (n2 - cb)) t2 0
                (s.drop (min (n1 - ca) (n2 - cb)))
                (by simp only [List.length_cons, List.length_nil] at hlen ⊢; omega)
                (Or.inr (by simp only [headCount]; omega)) (Or.inl rfl)
                (by simp only [remHead_delete, opCoverage, List.length_drop]; omega)
                (by simp only [remHead_zero, List.length_drop]; omega)
              simp only [remHead_zero, remHead_delete] at key
              have e1 : n1 - (ca + min (n1 - ca) (n2 - cb))
                  = n1 - ca - min (n1 - ca) (n2 - cb) := by omega
              rw [e1] at key
              exact key
            · rw [applyRem_delete_split (min (n1 - ca) (n2 - cb)) (n1 - ca) t1 s
                  (Nat.min_le_left _ _)]
              rw [applyRem_retain_split (min (n1 - ca) (n2 - cb)) (n2 - cb) t2 s
                  (Nat.min_le_right _ _)]
              have e1 : n1 - ca - min (n1 - ca) (n2 - cb) = 0 := by omega
              rw [e1, applyRem_delete_zero]
              rw [applyRem_append_delete _ _ _ _ (by rw [List.length_take]; omega)]
              have key := ih t1 0 (.retain n2 :: t2) (cb + min (n1 - ca) (n2 - cb))
                (s.drop (min (n1 - ca) (n2 - cb)))
                (by simp only [List.length_cons, List.length_nil] at hlen ⊢; omega)
                (Or.inl rfl) (Or.inr (by simp only [headCount]; omega))
                (by simp only [remHead_zero, List.length_drop]; omega)
                (by simp only [remHead_retain, opCoverage, List.length_drop]; omega)
              simp only [remHead_zero, remHead_retain] at key
              have e2 : n2 - (cb + min (n1 - ca) (n2 - cb))
                  = n2 - cb - min (n1 - ca) (n2 - cb) := by omega
              rw [e2] at key
              exact key
            · exfalso; omega
          | delete n2 =>
            have hcaD : ca = 0 ∨ ca < n1 := by simpa [cursorOk, headCount] using hca
            have hcbD : cb = 0 ∨ cb < n2 := by simpa [cursorOk, headCount] using hcb
            have hca2 : ca ≤ n1 := by rcases hcaD with rfl | h <;> omega
            have hcb2 : cb ≤ n2 := by rcases hcbD with rfl | h <;> omega
            simp only [remHead_delete, opCoverage] at hma hmb
            simp only [remHead_delete]
            rw [transformGo.eq_15, transformGo.eq_15, Nat.min_comm (n2 - cb) (n1 - ca)]
            split_ifs
            · rw [applyRem_delete_split (min (n1 - ca) (n2 - cb)) (n1 - ca) t1 s
                  (Nat.min_le_left _ _)]
              rw [applyRem_delete_split (min (n1 - ca) (n2 - cb)) (n2 - cb) t2 s
                  (Nat.min_le_right _ _)]
              have e1 : n1 - ca - min (n1 - ca) (n2 - cb) = 0 := by omega
              have e2 : n2 - cb - min (n1 - ca) (n2 - cb) = 0 := by omega
              rw [e1, e2, applyRem_delete_zero, applyRem_delete_zero]
              have key := ih t1 0 t2 0 (s.drop (min (n1 - ca) (n2 - cb)))
                (by simp only [List.length_cons, List.length_nil] at hlen ⊢; omega)
                (Or.inl rfl) (Or.inl rfl)
                (by simp only [remHead_zero, List.length_drop]; omega)
                (by simp only [remHead_zero, List.length_drop]; omega)
              simp only [remHead_zero] at key
              exact key
            · rw [applyRem_delete_split (min (n1 - ca) (n2 - cb)) (n1 - ca) t1 s
                  (Nat.min_le_left _ _)]
              rw [applyRem_delete_split (min (n1 - ca) (n2 - cb)) (n2 - cb) t2 s
                  (Nat.min_le_right _ _)]
              have e2 : n2 - cb - min (n1 - ca) (n2 - cb) = 0 := by omega
              rw [e2, applyRem_delete_zero]
              have key := ih (.delete n1 :: t1) (ca + min (n1 - ca) (n2 - cb)) t2 0
                (s.drop (min (n1 - ca) (n2 - cb)))
                (by simp only [List.length_cons, List.length_nil] at hlen ⊢; omega)
                (Or.inr (by simp only [headCount]; omega)) (Or.inl rfl)
                (by simp only [remHead_delete, opCoverage, List.length_drop]; omega)
                (by simp only [remHead_zero, List.length_drop]; omega)
              simp only [remHead_zero, remHead_delete] at key
              have e1 : n1 - (ca + min (n1 - ca) (n2 - cb))
                  = n1 - ca - min (n1 - ca) (n2 - cb) := by omega
              rw [e1] at key
              exact key
            · rw [applyRem_delete_split (min (n1 - ca) (n2 - cb)) (n1 - ca) t1 s
                  (Nat.min_le_left _ _)]
              rw [applyRem_delete_split (min (n1 - ca) (n2 - cb)) (n2 - cb) t2 s
                  (Nat.min_le_right _ _)]
              have e1 : n1 - ca - min (n1 - ca) (n2 - cb) = 0 := by omega
              rw [e1, applyRem_delete_zero]
              have key := ih t1 0 (.delete n2 :: t2) (cb + min (n1 - ca) (n2 - cb))
                (s.drop (min (n1 - ca) (n2 - cb)))
                (by simp only [List.length_cons, List.length_nil] at hlen ⊢; omega)
                (Or.inl rfl) (Or.inr (by simp only [headCount]; omega))
                (by simp only [remHead_zero, List.length_drop]; omega)
                (by simp only [remHead_delete, opCoverage, List.length_drop]; omega)
              simp only [remHead_zero, remHead_delete] at key
              have e2 : n2 - (cb + min (n1 - ca) (n2 - cb))
                  = n2 - cb - min (n1 - ca) (n2 - cb) := by omega
              rw [e2] at key
              exact key
            · exfalso; omega

/-- C1: TP1 convergence. For every base document d and every pair of
concurrent operations a and b whose retain+delete mass equals the length of
d, applying a to d and then transform(b, a, right) yields the same string
as applying b to d and then transform(a, b, left). (Proved from the
coverage hypotheses alone, so every well-formed pair in the sense of the
spec is covered.) -/
theorem C1_tp1_convergence (d : List Char) (a b : Op)
    (hA : opCoverage a = d.length) (hB : opCoverage b = d.length) :
    applyOperation (applyOperation d a) (transform b a .right)
      = applyOperation (applyOperation d b) (transform a b .left) := by
  have hdA := applyOperation_eq_applyRem a d hA
  have hdB := applyOperation_eq_applyRem b d hB
  have hlenA := applyRem_length a d (le_of_eq hA)
  have hlenB := applyRem_length b d (le_of_eq hB)
  have hcovA : opCoverage (transform b a .right) = getOpLength a := by
    show opCoverage (compactOps (transformGo b 0 a 0 .right)) = getOpLength a
    rw [opCoverage_compactOps]
    have h := cov_transformGo (b.length + a.length) b 0 a 0 .right (le_refl _)
      (Or.inl rfl) (Or.inl rfl) (by rw [remHead_zero, remHead_zero, hA, hB])
    rw [remHead_zero] at h
    exact h
  have hcovB : opCoverage (transform a b .left) = getOpLength b := by
    show opCoverage (compactOps (transformGo a 0 b 0 .left)) = getOpLength b
    rw [opCoverage_compactOps]
    have h := cov_transformGo (a.length + b.length) a 0 b 0 .left (le_refl _)
      (Or.inl rfl) (Or.inl rfl) (by rw [remHead_zero, remHead_zero, hA, hB])
    rw [remHead_zero] at h
    exact h
  rw [hdA, hdB]
  rw [applyOperation_eq_applyRem _ _ (by rw [hcovA, hlenA]),
      applyOperation_eq_applyRem _ _ (by rw [hcovB, hlenB])]
  show applyRem (applyRem d a) (compactOps (transformGo b 0 a 0 .right))
      = applyRem (applyRem d b) (compactOps (transformGo a 0 b 0 .left))
  rw [applyRem_compactOps, applyRem_compactOps]
  have key := tp1_transformGo (a.length + b.length) a 0 b 0 d (le_refl _)
    (Or.inl rfl) (Or.inl rfl) (by rw [remHead_zero, hA]) (by rw [remHead_zero, hB])
  rw [remHead_zero, remHead_zero] at key
  exact key

/-- Witness for C1_tp1_convergence: base "abc", a = [insert "x", retain 3],
b = [delete 1, retain 2]. -/
theorem C1_tp1_convergence_witness :
    opCoverage [Prim.insert ['x'], Prim.retain 3] = ("abc".toList).length ∧
    opCoverage [Prim.delete 1, Prim.retain 2] = ("abc".toList).length ∧
    applyOperation (applyOperation "abc".toList [Prim.insert ['x'], Prim.retain 3])
        (transform [Prim.delete 1, Prim.retain 2] [Prim.insert ['x'], Prim.retain 3] .right)
      = applyOperation (applyOperation "abc".toList [Prim.delete 1, Prim.retain 2])
        (transform [Prim.insert ['x'], Prim.retain 3] [Prim.delete 1, Prim.retain 2] .left) :=
  ⟨by decide, by decide,
   C1_tp1_convergence "abc".toList [Prim.insert ['x'], Prim.retain 3]
     [Prim.delete 1, Prim.retain 2] (by decide) (by decide)⟩

end CollabEditor
